import Mathlib

/-!
Shallow embedding of the infinite-scroll users table application:
the fake paginated API (`fetchUsers`), the pagination controller built
from `loadUsers` and the `useInfiniteScroll` intersection guard, the
debounced search effect, the memoized filter and sort derivation, and
the `DataTable` presentation rows with skeleton placeholders.
-/

namespace InfiniteTable

/-- Record shape produced by the fake API: `{ id, name, email, role }`. -/
structure User where
  id : Nat
  name : String
  email : String
  role : String
deriving DecidableEq

/-- Fixed dataset size from `fakeApi`: `const TOTAL_RECORDS = 10000`. -/
def TOTAL_RECORDS : Nat := 10000

/-- Fixed page size from `fakeApi`: `const PAGE_SIZE = 50`. -/
def PAGE_SIZE : Nat := 50

/-- One element of `allData`: index `i` yields id `i+1`, name `User i+1`,
email `useri+1@example.com`, role alternating Developer/Designer. -/
def mkUser (index : Nat) : User where
  id := index + 1
  name := "User " ++ toString (index + 1)
  email := "user" ++ toString (index + 1) ++ "@example.com"
  role := if index % 2 == 0 then "Developer" else "Designer"

/-- The synthesized dataset `allData = Array.from({length: TOTAL_RECORDS}, ...)`. -/
def allData : List User := (List.range TOTAL_RECORDS).map mkUser

/-- Resolution value of a `fetchUsers` promise: `{ data, hasMore }`. -/
structure FetchResult where
  data : List User
  hasMore : Bool
deriving DecidableEq

/-- The fake API `fetchUsers(page)`: `start = (page-1)*PAGE_SIZE`,
`end = start + PAGE_SIZE`, `data = allData.slice(start, end)`,
`hasMore = end < TOTAL_RECORDS`.  JS `slice(start, end)` on a list with
non-negative in-range style indices is `drop start` then `take (end - start)`. -/
def fetchUsers (page : Nat) : FetchResult :=
  let start := (page - 1) * PAGE_SIZE
  let stop := start + PAGE_SIZE
  { data := (allData.drop start).take (stop - start)
    hasMore := decide (stop < TOTAL_RECORDS) }

/-! ## Pagination controller

State of the `App` component relevant to pagination: the accumulated
`users`, the `page` cursor, the `loading` and `hasMore` flags, and the
list of currently in-flight fetches (`pending`, pages in issue order).
In the source a fetch is started by `loadUsers` (which does
`setLoading(true)` and then `fetchUsers(page).then(...)`), and the
intersection-observer callback of `useInfiniteScroll` only calls it when
`entry.isIntersecting && hasMore && !loading`.
-/

structure AppState where
  users : List User
  page : Nat
  loading : Bool
  hasMore : Bool
  pending : List Nat
deriving DecidableEq

/-- Events of the cooperative scheduling model: a sentinel-intersection
trigger, or the completion of the oldest in-flight fetch. -/
inductive Event where
  | trigger
  | resolve
deriving DecidableEq

/-- Initial state of `App`: `users=[]`, `page=1`, `loading=true`,
`hasMore=true`, and the mount effect has already issued the fetch of
page 1 (so it is in flight). -/
def initState : AppState :=
  { users := [], page := 1, loading := true, hasMore := true, pending := [1] }

/-- One transition of the controller.  A `trigger` is the observer
callback: it calls `loadUsers` only when `hasMore && !loading`
(`useInfiniteScroll.js`), which sets `loading := true` and issues a
fetch of the current `page`; otherwise the trigger is dropped.  A
`resolve` is the `.then` handler of the oldest in-flight fetch: it
appends the page data, stores the page result's `hasMore`, increments
`page`, and clears `loading`. -/
def step (s : AppState) : Event → AppState
  | .trigger =>
    if s.hasMore && !s.loading then
      { s with loading := true, pending := s.pending ++ [s.page] }
    else
      s
  | .resolve =>
    match s.pending with
    | [] => s
    | p :: rest =>
      let res := fetchUsers p
      { users := s.users ++ res.data
        page := s.page + 1
        loading := false
        hasMore := res.hasMore
        pending := rest }

/-- Run a sequence of events from a state. -/
def stepMany (s : AppState) (es : List Event) : AppState :=
  es.foldl step s

/-- Run a sequence of events from the initial state. -/
def run (es : List Event) : AppState :=
  stepMany initState es

/-- State after `k` fetches have completed: the mount fetch of page 1 is
the first completion, and each further completion is preceded by a
sentinel trigger. -/
def runK : Nat → AppState
  | 0 => initState
  | k + 1 => step (step (runK k) .trigger) .resolve

/-- Rejection of the oldest in-flight fetch.  `loadUsers` attaches no
rejection handler (`fetchUsers(page).then(...)` with no `catch`), so on
a rejected promise none of the state updates run: the fetch merely
leaves flight. -/
def stepFail (s : AppState) : AppState :=
  { s with pending := s.pending.tail }

/-! ## Filter and sort derivation -/

/-- Character-list version of JS `String.prototype.startsWith`. -/
def startsWithCh : List Char → List Char → Bool
  | [], _ => true
  | _ :: _, [] => false
  | c :: cs, d :: ds => c == d && startsWithCh cs ds

/-- Character-list version of JS `String.prototype.includes`:
`occursIn sub hay` is true when `sub` occurs contiguously in `hay`. -/
def occursIn (sub : List Char) : List Char → Bool
  | [] => startsWithCh sub []
  | c :: t => startsWithCh sub (c :: t) || occursIn sub t

/-- JS `hay.includes(sub)` on strings. -/
def includesJS (hay sub : String) : Bool :=
  occursIn sub.toList hay.toList

/-- JS `String.prototype.toLowerCase`, modelled as per-character case
normalization. -/
def toLowerJS (s : String) : String :=
  String.mk (s.toList.map Char.toLower)

/-- The filter predicate of `filteredUsers`:
`user.name.toLowerCase().includes(searchLower) ||
 user.email.toLowerCase().includes(searchLower)` where
`searchLower = debouncedSearchTerm.toLowerCase()`. -/
def matchesSearch (term : String) (u : User) : Bool :=
  let searchLower := toLowerJS term
  includesJS (toLowerJS u.name) searchLower || includesJS (toLowerJS u.email) searchLower

/-- `filteredUsers = users.filter(...)`. -/
def filteredUsers (users : List User) (term : String) : List User :=
  users.filter (matchesSearch term)

/-- Model of JS `a.localeCompare(b)` as code-point lexicographic string
comparison returning a negative, zero or positive integer. -/
def localeCompareInt (a b : String) : Int :=
  if a.toList < b.toList then -1 else if b.toList < a.toList then 1 else 0

/-- The comparator passed to `.sort` in `sortedUsers`, by `sortBy`
directive: `name-asc`, `name-desc` via `localeCompare`; `id-asc`,
`id-desc` via numeric difference; anything else returns 0. -/
def cmpUsers (sortBy : String) (a b : User) : Int :=
  if sortBy = "name-asc" then localeCompareInt a.name b.name
  else if sortBy = "name-desc" then localeCompareInt b.name a.name
  else if sortBy = "id-asc" then (a.id : Int) - (b.id : Int)
  else if sortBy = "id-desc" then (b.id : Int) - (a.id : Int)
  else 0

/-- The ordering induced by the comparator: `a` may come before `b`
when the comparator is non-positive. -/
def sortLe (sortBy : String) (a b : User) : Prop :=
  cmpUsers sortBy a b ≤ 0

instance (sb : String) : DecidableRel (sortLe sb) := fun a b =>
  inferInstanceAs (Decidable (cmpUsers sb a b ≤ 0))

/-- `sortedUsers = [...filteredUsers].sort(comparator)`: JS `sort` is
required to be a stable sort consistent with the comparator, embedded
as a stable insertion sort on a copy of the filtered list. -/
def sortedUsers (users : List User) (term sortBy : String) : List User :=
  List.insertionSort (sortLe sortBy) (filteredUsers users term)

/-- The full derivation `derive(records, settledSearch, sortDirective)`:
filter then sort, as produced by the chained `filteredUsers` and
`sortedUsers` computations. -/
def derive (records : List User) (settledSearch sortDirective : String) : List User :=
  sortedUsers records settledSearch sortDirective

/-! ## Debounced search effect

The effect `useEffect(() => { const timer = setTimeout(() =>
setDebouncedSearchTerm(searchTerm), 300); return () =>
clearTimeout(timer); }, [searchTerm])` is modelled as a timed state:
each raw update at time `t` first lets a timer already due fire, then
(cleanup) cancels any still-pending timer and schedules a new one at
`t + 300` carrying the new raw value.  Emissions record the settled
updates with their times.
-/

/-- Debounce window from the source: `setTimeout(..., 300)`. -/
def DEBOUNCE_MS : Nat := 300

structure DebounceState where
  raw : String
  settled : String
  pendingTimer : Option (Nat × String)
  emissions : List (Nat × String)
deriving DecidableEq

/-- Initial debounce state: both search strings start as `""`. -/
def debounceInit : DebounceState :=
  { raw := "", settled := "", pendingTimer := none, emissions := [] }

/-- Let the pending timer fire if its deadline is at or before `t`. -/
def flushDue (s : DebounceState) (t : Nat) : DebounceState :=
  match s.pendingTimer with
  | some (d, v) =>
    if d ≤ t then
      { s with settled := v, pendingTimer := none, emissions := s.emissions ++ [(d, v)] }
    else s
  | none => s

/-- A raw search update at time `t` with value `v`: any timer already
due has fired; the effect cleanup clears a still-pending timer and the
effect schedules a new one at `t + DEBOUNCE_MS`. -/
def debounceStep (s : DebounceState) (t : Nat) (v : String) : DebounceState :=
  let s := flushDue s t
  { s with raw := v, pendingTimer := some (t + DEBOUNCE_MS, v) }

/-- Process a timed sequence of raw updates. -/
def debounceRun (inputs : List (Nat × String)) : DebounceState :=
  inputs.foldl (fun s tv => debounceStep s tv.1 tv.2) debounceInit

/-- Observe the debouncer at time `tEnd` after the updates `inputs`:
a timer due by `tEnd` has fired. -/
def debounceAt (inputs : List (Nat × String)) (tEnd : Nat) : DebounceState :=
  flushDue (debounceRun inputs) tEnd

/-- Teardown at time `t`: a timer already due has fired earlier; the
cleanup clears a still-pending timer, so it never emits. -/
def debounceTeardown (inputs : List (Nat × String)) (t : Nat) : DebounceState :=
  let s := flushDue (debounceRun inputs) t
  { s with pendingTimer := none }

/-- Burst pattern: starting from a pending deadline `d`, every update
arrives strictly before the current deadline, and each update moves the
deadline to its own time plus the window. -/
def withinBurst : Nat → List (Nat × String) → Prop
  | _, [] => True
  | d, (t, _) :: rest => t < d ∧ withinBurst (t + DEBOUNCE_MS) rest

/-! ## Memoized derivation (`useMemo`)

`useMemo(compute, deps)` is modelled by an optional cell holding the
previous dependency tuple and the previous value; on render, if the
stored dependencies equal the current ones the stored value itself is
returned without recomputation, otherwise `compute` runs.  The Boolean
in the result records whether a recomputation happened.
-/

structure MemoCell (δ ε : Type) where
  deps : δ
  value : ε

def useMemoStep {δ ε : Type} [DecidableEq δ] (compute : δ → ε)
    (cell : Option (MemoCell δ ε)) (deps : δ) : MemoCell δ ε × ε × Bool :=
  match cell with
  | some c =>
    if c.deps = deps then (c, c.value, false)
    else
      let v := compute deps
      (⟨deps, v⟩, v, true)
  | none =>
    let v := compute deps
    (⟨deps, v⟩, v, true)

/-- The two memo cells of `App`: `filteredUsers` keyed on
`[users, debouncedSearchTerm]` and `sortedUsers` keyed on
`[filteredUsers, sortBy]`. -/
structure MemoState where
  filteredCell : Option (MemoCell (List User × String) (List User))
  sortedCell : Option (MemoCell (List User × String) (List User))

/-- Initial memo state: no cells have been computed. -/
def memoInit : MemoState := ⟨none, none⟩

/-- One render of `App`'s derivation: run the `filteredUsers` memo,
feed its value to the `sortedUsers` memo; return the new cells, the
display list, and the two recomputation flags. -/
def renderDerive (ms : MemoState) (users : List User) (term sortBy : String) :
    MemoState × List User × Bool × Bool :=
  let fRes := useMemoStep (fun uv => filteredUsers uv.1 uv.2) ms.filteredCell (users, term)
  let sRes := useMemoStep (fun fv => List.insertionSort (sortLe fv.2) fv.1)
    ms.sortedCell (fRes.2.1, sortBy)
  (⟨some fRes.1, some sRes.1⟩, sRes.2.1, fRes.2.2, sRes.2.2)

/-! ## Presentation rows (`DataTable`) -/

/-- A rendered table row: a real record row or a skeleton placeholder. -/
inductive RowKind where
  | real (u : User)
  | skeleton
deriving DecidableEq

/-- Whether a row is a skeleton placeholder. -/
def RowKind.isSkeleton : RowKind → Bool
  | .real _ => false
  | .skeleton => true

/-- Skeleton row count from `DataTable`: `Array.from({ length: 18 })`. -/
def SKELETON_COUNT : Nat := 18

/-- The rows rendered by `DataTable({ data, loading })`: one real row
per record in order, then, only while `loading`, `SKELETON_COUNT`
skeleton rows. -/
def renderRows (data : List User) (loading : Bool) : List RowKind :=
  data.map RowKind.real ++ (if loading then List.replicate SKELETON_COUNT RowKind.skeleton else [])

/-! ## Lemmas: in-flight fetches -/

/-- Controller invariant: at most one fetch in flight, and none when not
loading. -/
def FlightInv (s : AppState) : Prop :=
  s.pending.length ≤ 1 ∧ (s.loading = false → s.pending = [])

lemma flightInv_init : FlightInv initState := by
  constructor
  · simp [initState]
  · intro h
    simp [initState] at h

lemma trigger_dropped (s : AppState) (h : s.loading = true ∨ s.hasMore = false) :
    step s Event.trigger = s := by
  rcases h with h | h <;> simp [step, h]

lemma flightInv_step (s : AppState) (e : Event) (hs : FlightInv s) : FlightInv (step s e) := by
  obtain ⟨h1, h2⟩ := hs
  cases e with
  | trigger =>
    by_cases hL : s.loading = true
    · rw [trigger_dropped s (Or.inl hL)]
      exact ⟨h1, h2⟩
    · have hL' : s.loading = false := by
        cases hb : s.loading
        · rfl
        · exact absurd hb hL
      by_cases hM : s.hasMore = true
      · simp only [step, hM, hL', Bool.not_false, Bool.and_self, if_true]
        refine ⟨?_, ?_⟩
        · rw [h2 hL']
          simp
        · intro h
          simp at h
      · have hM' : s.hasMore = false := by
          cases hb : s.hasMore
          · rfl
          · exact absurd hb hM
        rw [trigger_dropped s (Or.inr hM')]
        exact ⟨h1, h2⟩
  | resolve =>
    cases hp : s.pending with
    | nil => simpa [step, hp] using ⟨h1, h2⟩
    | cons p rest =>
      have hrest : rest = [] := by
        rw [hp] at h1
        simpa using h1
      simp [step, hp, hrest, FlightInv]

lemma flightInv_stepMany (es : List Event) :
    ∀ s : AppState, FlightInv s → FlightInv (stepMany s es) := by
  induction es with
  | nil => intro s hs; exact hs
  | cons e es ih =>
    intro s hs
    exact ih (step s e) (flightInv_step s e hs)

/-- C1 -- For every sequence of sentinel-intersection and
fetch-completion events from the initial state, the number of in-flight
page fetches never exceeds 1; and a trigger reaching a state where
`loading` is true or `hasMore` is false leaves the state unchanged (the
trigger is dropped, not queued). -/
theorem inflight_never_exceeds_one (es : List Event) :
    (run es).pending.length ≤ 1 ∧
      ∀ s : AppState, s.loading = true ∨ s.hasMore = false → step s Event.trigger = s := by
  constructor
  · exact (flightInv_stepMany es initState flightInv_init).1
  · exact trigger_dropped

/-- Witness for C1 at a concrete event sequence and a concrete loading
state. -/
theorem inflight_never_exceeds_one_witness :
    (run [Event.trigger, Event.resolve]).pending.length ≤ 1 ∧
      step initState Event.trigger = initState :=
  ⟨(inflight_never_exceeds_one [Event.trigger, Event.resolve]).1,
    (inflight_never_exceeds_one [Event.trigger, Event.resolve]).2 initState (Or.inl rfl)⟩

/-! ## Lemmas: the fake API -/

lemma allData_length : allData.length = TOTAL_RECORDS := by
  simp [allData]

lemma take_range' (m : Nat) : ∀ (s n : Nat), (List.range' s n).take m = List.range' s (min m n) := by
  induction m with
  | zero => intro s n; simp
  | succ m ih =>
    intro s n
    cases n with
    | zero => simp
    | succ k =>
      rw [List.range'_succ, List.take_succ_cons, ih (s + 1) k, Nat.succ_min_succ,
        List.range'_succ]

lemma drop_range' (m : Nat) : ∀ (s n : Nat), (List.range' s n).drop m = List.range' (s + m) (n - m) := by
  induction m with
  | zero => intro s n; simp
  | succ m ih =>
    intro s n
    cases n with
    | zero => simp
    | succ k =>
      rw [List.range'_succ, List.drop_succ_cons, ih (s + 1) k]
      congr 1 <;> omega

lemma take_add_split (l : List User) (m n : Nat) :
    l.take (m + n) = l.take m ++ (l.drop m).take n := by
  conv_lhs => rw [← List.take_append_drop m (l.take (m + n))]
  rw [List.take_take, Nat.min_eq_left (Nat.le_add_right m n), List.take_drop]

/-- The records of `fetchUsers p` are the slice of the dataset starting
at index `(p-1)*PAGE_SIZE`. -/
lemma fetchUsers_data (p : Nat) :
    (fetchUsers p).data =
      (List.range' ((p - 1) * PAGE_SIZE)
        (min PAGE_SIZE (TOTAL_RECORDS - (p - 1) * PAGE_SIZE))).map mkUser := by
  show ((allData.drop ((p - 1) * PAGE_SIZE)).take
      ((p - 1) * PAGE_SIZE + PAGE_SIZE - (p - 1) * PAGE_SIZE)) = _
  rw [Nat.add_sub_cancel_left, allData, List.range_eq_range', ← List.map_drop, ← List.map_take,
    drop_range', Nat.zero_add, take_range']

lemma fetchUsers_hasMore_def (p : Nat) :
    (fetchUsers p).hasMore = decide ((p - 1) * PAGE_SIZE + PAGE_SIZE < TOTAL_RECORDS) := rfl

lemma fetchUsers_length (p : Nat) :
    (fetchUsers p).data.length = min PAGE_SIZE (TOTAL_RECORDS - (p - 1) * PAGE_SIZE) := by
  rw [fetchUsers_data]
  simp

/-! ## Lemmas: the canonical pagination run -/

lemma allData_take_succ_page (k : Nat) (h : (k + 1) * PAGE_SIZE ≤ TOTAL_RECORDS) :
    allData.take (k * PAGE_SIZE) ++ (fetchUsers (k + 1)).data =
      allData.take ((k + 1) * PAGE_SIZE) := by
  have hK : k + 1 - 1 = k := by omega
  have hsucc : (k + 1) * PAGE_SIZE = k * PAGE_SIZE + PAGE_SIZE := by ring
  have hmin : min PAGE_SIZE (TOTAL_RECORDS - k * PAGE_SIZE) = PAGE_SIZE := by omega
  rw [fetchUsers_data, hK, hmin, hsucc, take_add_split]
  congr 1
  rw [allData, List.range_eq_range', ← List.map_drop, ← List.map_take, drop_range',
    Nat.zero_add, take_range', hmin]

/-- Closed form of the controller state after `k ≥ 1` completed fetches
(while pages remain to be fetched up to `k = 200`). -/
lemma runK_spec : ∀ k : Nat, 1 ≤ k → k ≤ 200 →
    runK k = { users := allData.take (k * PAGE_SIZE), page := k + 1, loading := false,
               hasMore := decide (k * PAGE_SIZE < TOTAL_RECORDS), pending := [] } := by
  intro k
  induction k with
  | zero => intro h; omega
  | succ k ih =>
    intro _ hk
    by_cases hk1 : k = 0
    · subst hk1
      show step (step initState .trigger) .resolve = _
      rw [trigger_dropped initState (Or.inl rfl)]
      show ({ users := [] ++ (fetchUsers 1).data, page := 2, loading := false,
              hasMore := (fetchUsers 1).hasMore, pending := [] } : AppState) = _
      rw [List.nil_append, fetchUsers_hasMore_def, fetchUsers_data]
      have h1 : (1 - 1) * PAGE_SIZE = 0 := by norm_num
      rw [h1, Nat.zero_add, Nat.sub_zero, Nat.one_mul, allData, List.range_eq_range',
        ← List.map_take, take_range']
    · have hk2 : 1 ≤ k := Nat.one_le_iff_ne_zero.mpr hk1
      have hk3 : k ≤ 200 := by omega
      have hlt : k * PAGE_SIZE < TOTAL_RECORDS := by
        have h199 : k ≤ 199 := by omega
        have : k * PAGE_SIZE ≤ 199 * PAGE_SIZE := Nat.mul_le_mul_right _ h199
        simp only [PAGE_SIZE, TOTAL_RECORDS] at this ⊢
        omega
      show step (step (runK k) .trigger) .resolve = _
      rw [ih hk2 hk3]
      have hMore : decide (k * PAGE_SIZE < TOTAL_RECORDS) = true := decide_eq_true hlt
      simp only [step, hMore, Bool.not_false, Bool.and_self, if_true]
      show ({ users := allData.take (k * PAGE_SIZE) ++ (fetchUsers (k + 1)).data,
              page := k + 1 + 1, loading := false, hasMore := (fetchUsers (k + 1)).hasMore,
              pending := [] } : AppState) = _
      have hle : (k + 1) * PAGE_SIZE ≤ TOTAL_RECORDS := by
        have : (k + 1) * PAGE_SIZE ≤ 200 * PAGE_SIZE := Nat.mul_le_mul_right _ hk
        simpa [PAGE_SIZE, TOTAL_RECORDS] using this
      rw [allData_take_succ_page k hle, fetchUsers_hasMore_def]
      have hway : (k + 1 - 1) * PAGE_SIZE + PAGE_SIZE = (k + 1) * PAGE_SIZE := by
        rw [Nat.add_sub_cancel]
        ring
      rw [hway]

lemma runK_exhausted :
    runK 200 = { users := allData.take (200 * PAGE_SIZE), page := 201, loading := false,
                 hasMore := false, pending := [] } := by
  have h := runK_spec 200 (by norm_num) (by norm_num)
  rw [h]
  congr 1

lemma step_fix_of_exhausted_idle (s : AppState) (hM : s.hasMore = false)
    (hp : s.pending = []) (e : Event) : step s e = s := by
  cases e with
  | trigger => exact trigger_dropped s (Or.inr hM)
  | resolve => simp [step, hp]

lemma runK_ge_exhausted : ∀ k : Nat, 200 ≤ k → runK k = runK 200 := by
  intro k
  induction k with
  | zero => intro h; omega
  | succ k ih =>
    intro hk
    by_cases hk2 : 200 ≤ k
    · have hrk : runK k = runK 200 := ih hk2
      show step (step (runK k) .trigger) .resolve = runK 200
      rw [hrk, runK_exhausted]
      rw [step_fix_of_exhausted_idle _ rfl rfl, step_fix_of_exhausted_idle _ rfl rfl]
    · have : k + 1 = 200 := by omega
      rw [this]

lemma stepMany_trigger_fix (s : AppState) (hM : s.hasMore = false) :
    ∀ n : Nat, stepMany s (List.replicate n Event.trigger) = s := by
  intro n
  induction n with
  | zero => rfl
  | succ n ih =>
    show stepMany s (Event.trigger :: List.replicate n Event.trigger) = s
    show stepMany (step s Event.trigger) (List.replicate n Event.trigger) = s
    rw [trigger_dropped s (Or.inr hM)]
    exact ih

/-- C2 -- After `k` completed fetches with `k * 50 < 10000` the
accumulated records number exactly `k * 50` and `hasMore` is true; every
fetch of a page `p ≥ 1` resolves with `hasMore = (p * 50 < 10000)`; and
once `k * 50 ≥ 10000` the controller has `hasMore = false` and any
number of further scroll triggers leaves the state unchanged. -/
theorem pagination_accumulation (k : Nat) :
    (k * PAGE_SIZE < TOTAL_RECORDS →
      (runK k).users.length = k * PAGE_SIZE ∧ (runK k).hasMore = true)
    ∧ (∀ p : Nat, 1 ≤ p → (fetchUsers p).hasMore = decide (p * PAGE_SIZE < TOTAL_RECORDS))
    ∧ (TOTAL_RECORDS ≤ k * PAGE_SIZE → (runK k).hasMore = false ∧
        ∀ n : Nat, stepMany (runK k) (List.replicate n Event.trigger) = runK k) := by
  refine ⟨?_, ?_, ?_⟩
  · intro hlt
    by_cases hk : k = 0
    · subst hk
      exact ⟨rfl, rfl⟩
    · have h1 : 1 ≤ k := Nat.one_le_iff_ne_zero.mpr hk
      have h2 : k ≤ 200 := by
        by_contra hgt
        have : 201 ≤ k := by omega
        have : 201 * PAGE_SIZE ≤ k * PAGE_SIZE := Nat.mul_le_mul_right _ this
        simp only [PAGE_SIZE, TOTAL_RECORDS] at *
        omega
      rw [runK_spec k h1 h2]
      refine ⟨?_, decide_eq_true hlt⟩
      simp only [List.length_take, allData_length]
      omega
  · intro p hp
    rw [fetchUsers_hasMore_def]
    congr 1
    have : (p - 1) * PAGE_SIZE + PAGE_SIZE = p * PAGE_SIZE := by
      cases p with
      | zero => omega
      | succ q => simp [Nat.succ_sub_one]; ring
    rw [this]
  · intro hge
    have hk : 200 ≤ k := by
      by_contra hlt
      have : k ≤ 199 := by omega
      have : k * PAGE_SIZE ≤ 199 * PAGE_SIZE := Nat.mul_le_mul_right _ this
      simp only [PAGE_SIZE, TOTAL_RECORDS] at *
      omega
    have hr : runK k = runK 200 := runK_ge_exhausted k hk
    have hM : (runK k).hasMore = false := by
      rw [hr, runK_exhausted]
    exact ⟨hM, stepMany_trigger_fix _ hM⟩

/-- Witness for C2 at `k = 1` (records accumulate) and `k = 200`
(exhaustion). -/
theorem pagination_accumulation_witness :
    (runK 1).users.length = 1 * PAGE_SIZE ∧
      (fetchUsers 1).hasMore = decide (1 * PAGE_SIZE < TOTAL_RECORDS) ∧
      (runK 200).hasMore = false :=
  ⟨((pagination_accumulation 1).1 (by decide)).1,
    (pagination_accumulation 1).2.1 1 (by decide),
    ((pagination_accumulation 200).2.2 (by decide)).1⟩

/-- C10 -- For `p ≥ 1`, `fetchUsers p` resolves with exactly the
records of ids `(p-1)*50 + 1` through `min (p*50) 10000`, in strictly
ascending order; ids of an earlier page are all below ids of a later
page; and a page past the dataset (`(p-1)*50 ≥ 10000`) resolves with no
records and `hasMore = false`. -/
theorem fetch_page_partition (p : Nat) (hp : 1 ≤ p) :
    ((fetchUsers p).data.map User.id =
      List.range' ((p - 1) * PAGE_SIZE + 1)
        (min (p * PAGE_SIZE) TOTAL_RECORDS - (p - 1) * PAGE_SIZE))
    ∧ List.Pairwise (· < ·) ((fetchUsers p).data.map User.id)
    ∧ (∀ q : Nat, p < q →
        ∀ a ∈ (fetchUsers p).data.map User.id, ∀ b ∈ (fetchUsers q).data.map User.id, a < b)
    ∧ (TOTAL_RECORDS ≤ (p - 1) * PAGE_SIZE →
        (fetchUsers p).data = [] ∧ (fetchUsers p).hasMore = false) := by
  have hids : ∀ r : Nat, 1 ≤ r → (fetchUsers r).data.map User.id =
      List.range' ((r - 1) * PAGE_SIZE + 1)
        (min (r * PAGE_SIZE) TOTAL_RECORDS - (r - 1) * PAGE_SIZE) := by
    intro r hr
    rw [fetchUsers_data, List.map_map]
    have hone : (fun i => User.id (mkUser i)) = (fun i => 1 + i) := by
      funext i
      show i + 1 = 1 + i
      omega
    show List.map (fun i => User.id (mkUser i)) _ = _
    rw [hone, List.map_add_range']
    congr 1
    · omega
    · have : r * PAGE_SIZE = (r - 1) * PAGE_SIZE + PAGE_SIZE := by
        cases r with
        | zero => omega
        | succ q => simp [Nat.succ_sub_one]; ring
      omega
  refine ⟨hids p hp, ?_, ?_, ?_⟩
  · rw [hids p hp]
    exact List.pairwise_lt_range' _ _
  · intro q hq a ha b hb
    rw [hids p hp] at ha
    rw [hids q (by omega)] at hb
    rw [List.mem_range'] at ha hb
    obtain ⟨i, hi, hai⟩ := ha
    obtain ⟨j, hj, hbj⟩ := hb
    have hpq : p * PAGE_SIZE ≤ (q - 1) * PAGE_SIZE := by
      have : p ≤ q - 1 := by omega
      exact Nat.mul_le_mul_right _ this
    simp only [Nat.one_mul] at hai hbj
    omega
  · intro hbig
    constructor
    · rw [fetchUsers_data]
      have : min PAGE_SIZE (TOTAL_RECORDS - (p - 1) * PAGE_SIZE) = 0 := by omega
      rw [this]
      simp
    · rw [fetchUsers_hasMore_def]
      simp only [decide_eq_false_iff_not, not_lt]
      simp only [PAGE_SIZE, TOTAL_RECORDS] at *
      omega

/-- Witness for C10 at page 201, the first page past the dataset. -/
theorem fetch_page_partition_witness :
    (fetchUsers 201).data = [] ∧ (fetchUsers 201).hasMore = false :=
  (fetch_page_partition 201 (by decide)).2.2.2 (by decide)

/-! ## Lemmas: the search filter -/

lemma startsWithCh_iff (sub : List Char) : ∀ hay : List Char,
    startsWithCh sub hay = true ↔ ∃ t, hay = sub ++ t := by
  induction sub with
  | nil =>
    intro hay
    simp only [startsWithCh, List.nil_append, true_iff]
    exact ⟨hay, rfl⟩
  | cons c cs ih =>
    intro hay
    cases hay with
    | nil =>
      simp [startsWithCh]
    | cons d ds =>
      simp only [startsWithCh, Bool.and_eq_true, beq_iff_eq, ih ds, List.cons_append,
        List.cons.injEq]
      constructor
      · rintro ⟨rfl, t, ht⟩
        exact ⟨t, rfl, ht⟩
      · rintro ⟨t, rfl, ht⟩
        exact ⟨rfl, t, ht⟩

lemma occursIn_iff (sub : List Char) : ∀ hay : List Char,
    occursIn sub hay = true ↔ ∃ s t, hay = s ++ sub ++ t := by
  intro hay
  induction hay with
  | nil =>
    simp only [occursIn, startsWithCh_iff]
    constructor
    · rintro ⟨t, ht⟩
      exact ⟨[], t, by simpa using ht⟩
    · rintro ⟨s, t, ht⟩
      have hs : s = [] ∧ sub ++ t = [] := by
        have := ht.symm
        rw [List.append_assoc] at this
        exact List.append_eq_nil.mp this
      exact ⟨t, by rw [hs.2]⟩
  | cons c cs ih =>
    simp only [occursIn, Bool.or_eq_true, startsWithCh_iff, ih]
    constructor
    · rintro (⟨t, ht⟩ | ⟨s, t, ht⟩)
      · exact ⟨[], t, by simpa using ht⟩
      · exact ⟨c :: s, t, by simp [ht]⟩
    · rintro ⟨s, t, ht⟩
      cases s with
      | nil =>
        left
        exact ⟨t, by simpa using ht⟩
      | cons a as =>
        right
        rw [List.cons_append, List.cons_append, List.cons.injEq] at ht
        exact ⟨as, t, by rw [ht.2, List.append_assoc]⟩

lemma occursIn_nil_sub (hay : List Char) : occursIn [] hay = true := by
  cases hay <;> simp [occursIn, startsWithCh]

lemma matchesSearch_empty (u : User) : matchesSearch "" u = true := by
  have h : (toLowerJS "").toList = [] := rfl
  simp only [matchesSearch, includesJS, h, occursIn_nil_sub, Bool.true_or]

lemma filteredUsers_empty_term (users : List User) : filteredUsers users "" = users := by
  unfold filteredUsers
  exact List.filter_eq_self.mpr fun u _ => matchesSearch_empty u

lemma mem_filteredUsers (users : List User) (term : String) (u : User) :
    u ∈ filteredUsers users term ↔ u ∈ users ∧
      ((∃ s t, (toLowerJS u.name).toList = s ++ (toLowerJS term).toList ++ t) ∨
       (∃ s t, (toLowerJS u.email).toList = s ++ (toLowerJS term).toList ++ t)) := by
  unfold filteredUsers
  rw [List.mem_filter]
  unfold matchesSearch includesJS
  simp only [Bool.or_eq_true, occursIn_iff]

/-- C3 -- The filter keeps exactly the records whose name or email
contains the settled search term as a contiguous substring after
lowercasing both sides; the empty search term keeps every record; and a
record named "Alice" is kept for the search term "ALI". -/
theorem filter_case_insensitive_substring :
    (∀ users : List User, filteredUsers users "" = users)
    ∧ (∀ (users : List User) (term : String) (u : User),
        u ∈ filteredUsers users term ↔ u ∈ users ∧
          ((∃ s t, (toLowerJS u.name).toList = s ++ (toLowerJS term).toList ++ t) ∨
           (∃ s t, (toLowerJS u.email).toList = s ++ (toLowerJS term).toList ++ t)))
    ∧ filteredUsers
        [{ id := 1, name := "Alice", email := "alice@example.com", role := "Developer" }]
        "ALI" =
        [{ id := 1, name := "Alice", email := "alice@example.com", role := "Developer" }] :=
  ⟨filteredUsers_empty_term, mem_filteredUsers, by decide⟩

/-! ## Lemmas: the sort comparator -/

lemma cmpUsers_none (a b : User) : cmpUsers "none" a b = 0 := rfl

lemma cmp_id_asc (a b : User) : cmpUsers "id-asc" a b = (a.id : Int) - (b.id : Int) := rfl

lemma cmp_id_desc (a b : User) : cmpUsers "id-desc" a b = (b.id : Int) - (a.id : Int) := rfl

lemma cmp_name_asc (a b : User) : cmpUsers "name-asc" a b = localeCompareInt a.name b.name := rfl

lemma cmp_name_desc (a b : User) : cmpUsers "name-desc" a b = localeCompareInt b.name a.name := rfl

lemma sortLe_none_all (a b : User) : sortLe "none" a b := by
  show cmpUsers "none" a b ≤ 0
  rw [cmpUsers_none]

lemma localeCompareInt_nonpos (x y : String) : localeCompareInt x y ≤ 0 ↔ x.toList ≤ y.toList := by
  unfold localeCompareInt
  split_ifs with h1 h2
  · exact iff_of_true (by norm_num) (le_of_lt h1)
  · exact iff_of_false (by norm_num) (not_le.mpr h2)
  · exact iff_of_true le_rfl (not_lt.mp h2)

lemma sortLe_id_asc_iff (a b : User) : sortLe "id-asc" a b ↔ a.id ≤ b.id := by
  show cmpUsers "id-asc" a b ≤ 0 ↔ _
  rw [cmp_id_asc]
  omega

lemma sortLe_id_desc_iff (a b : User) : sortLe "id-desc" a b ↔ b.id ≤ a.id := by
  show cmpUsers "id-desc" a b ≤ 0 ↔ _
  rw [cmp_id_desc]
  omega

lemma sortLe_name_asc_iff (a b : User) :
    sortLe "name-asc" a b ↔ a.name.toList ≤ b.name.toList := by
  show cmpUsers "name-asc" a b ≤ 0 ↔ _
  rw [cmp_name_asc, localeCompareInt_nonpos]

lemma sortLe_name_desc_iff (a b : User) :
    sortLe "name-desc" a b ↔ b.name.toList ≤ a.name.toList := by
  show cmpUsers "name-desc" a b ≤ 0 ↔ _
  rw [cmp_name_desc, localeCompareInt_nonpos]

instance : IsTotal User (sortLe "id-asc") :=
  ⟨fun a b => by simp only [sortLe_id_asc_iff]; omega⟩

instance : IsTrans User (sortLe "id-asc") :=
  ⟨fun a b c => by simp only [sortLe_id_asc_iff]; omega⟩

instance : IsTotal User (sortLe "id-desc") :=
  ⟨fun a b => by simp only [sortLe_id_desc_iff]; omega⟩

instance : IsTrans User (sortLe "id-desc") :=
  ⟨fun a b c => by simp only [sortLe_id_desc_iff]; omega⟩

instance : IsTotal User (sortLe "name-asc") :=
  ⟨fun a b => by simp only [sortLe_name_asc_iff]; exact le_total _ _⟩

instance : IsTrans User (sortLe "name-asc") :=
  ⟨fun a b c => by simp only [sortLe_name_asc_iff]; exact le_trans⟩

instance : IsTotal User (sortLe "name-desc") :=
  ⟨fun a b => by simp only [sortLe_name_desc_iff]; exact le_total _ _⟩

instance : IsTrans User (sortLe "name-desc") :=
  ⟨fun a b c => by
    simp only [sortLe_name_desc_iff]
    intro h1 h2
    exact le_trans h2 h1⟩

lemma insertionSort_of_all {r : User → User → Prop} [DecidableRel r]
    (hall : ∀ a b, r a b) : ∀ l : List User, List.insertionSort r l = l := by
  intro l
  induction l with
  | nil => rfl
  | cons a t ih =>
    show List.orderedInsert r a (List.insertionSort r t) = a :: t
    rw [ih]
    cases t with
    | nil => rfl
    | cons b t2 => exact List.orderedInsert_of_le r t2 (hall a b)

lemma sortedUsers_none (users : List User) (term : String) :
    sortedUsers users term "none" = filteredUsers users term :=
  insertionSort_of_all sortLe_none_all _

/-- Concrete records for the sort examples of the specification. -/
def userId3 : User := { id := 3, name := "u3", email := "u3@example.com", role := "Developer" }

def userId1 : User := { id := 1, name := "u1", email := "u1@example.com", role := "Designer" }

def userId7 : User := { id := 7, name := "u7", email := "u7@example.com", role := "Developer" }

def userBob : User := { id := 1, name := "Bob", email := "bob@example.com", role := "Developer" }

def userAlice : User :=
  { id := 2, name := "alice", email := "alice@example.com", role := "Designer" }

def userCarl : User := { id := 3, name := "Carl", email := "carl@example.com", role := "Developer" }

/-- C4 -- The sort step is a stable sort of the filtered result only:
it permutes exactly the filtered records; directive `none` preserves
the filter-result order; `id-asc`/`id-desc` order numerically on `id`
and `name-asc`/`name-desc` lexicographically on `name`; a sorted
(comparator-nondecreasing) sublist of the filtered result keeps its
relative order (stability); and the specification's two concrete
examples hold. -/
theorem sort_stable_filtered_only :
    (∀ (users : List User) (term : String),
      sortedUsers users term "none" = filteredUsers users term)
    ∧ (∀ (users : List User) (term sb : String),
        (sortedUsers users term sb).Perm (filteredUsers users term))
    ∧ (∀ (users : List User) (term sb : String) (c : List User),
        c.Pairwise (sortLe sb) → c.Sublist (filteredUsers users term) →
          c.Sublist (sortedUsers users term sb))
    ∧ (∀ (users : List User) (term : String),
        (sortedUsers users term "id-asc").Pairwise (fun a b => a.id ≤ b.id))
    ∧ (∀ (users : List User) (term : String),
        (sortedUsers users term "id-desc").Pairwise (fun a b => b.id ≤ a.id))
    ∧ (∀ (users : List User) (term : String),
        (sortedUsers users term "name-asc").Pairwise
          (fun a b => a.name.toList ≤ b.name.toList))
    ∧ (∀ (users : List User) (term : String),
        (sortedUsers users term "name-desc").Pairwise
          (fun a b => b.name.toList ≤ a.name.toList))
    ∧ sortedUsers [userId3, userId1, userId7] "" "id-desc" = [userId7, userId3, userId1]
    ∧ sortedUsers [userBob, userAlice, userCarl] "" "name-asc" =
        [userBob, userCarl, userAlice] := by
  refine ⟨sortedUsers_none, ?_, ?_, ?_, ?_, ?_, ?_, by decide, by decide⟩
  · intro users term sb
    exact List.perm_insertionSort (sortLe sb) (filteredUsers users term)
  · intro users term sb c hp hc
    exact List.sublist_insertionSort hp hc
  · intro users term
    exact (List.sorted_insertionSort (sortLe "id-asc") (filteredUsers users term)).imp
      fun h => (sortLe_id_asc_iff _ _).mp h
  · intro users term
    exact (List.sorted_insertionSort (sortLe "id-desc") (filteredUsers users term)).imp
      fun h => (sortLe_id_desc_iff _ _).mp h
  · intro users term
    exact (List.sorted_insertionSort (sortLe "name-asc") (filteredUsers users term)).imp
      fun h => (sortLe_name_asc_iff _ _).mp h
  · intro users term
    exact (List.sorted_insertionSort (sortLe "name-desc") (filteredUsers users term)).imp
      fun h => (sortLe_name_desc_iff _ _).mp h

/-- Witness for C4 at a concrete stable-pair instance: the two
comparator-equal records keep their relative order through the sort. -/
theorem sort_stable_filtered_only_witness :
    ([userId3, userId1] : List User).Sublist
      (sortedUsers [userId3, userId1, userId7] "" "none") :=
  (sort_stable_filtered_only).2.2.1 [userId3, userId1, userId7] "" "none"
    [userId3, userId1] (by decide) (by decide)

/-- C8 -- Deriving with the empty settled search and directive `none`
returns the accumulated records unchanged, in order. -/
theorem derive_empty_none_identity (records : List User) :
    derive records "" "none" = records := by
  unfold derive
  rw [sortedUsers_none, filteredUsers_empty_term]

/-! ## Lemmas: presentation rows -/

lemma countP_skeleton_real (data : List User) :
    (data.map RowKind.real).countP RowKind.isSkeleton = 0 := by
  rw [List.countP_map]
  simp [Function.comp, RowKind.isSkeleton]

/-- C9 -- The rendered table is the real rows of the display list, in
order, followed by skeleton placeholders only: exactly `18` of them
while `loading` is true and `0` otherwise; the display list produced by
the derivation itself contains no placeholder entries. -/
theorem skeleton_rows_presentation :
    (∀ (data : List User) (loading : Bool),
      renderRows data loading =
        data.map RowKind.real ++
          List.replicate (if loading then SKELETON_COUNT else 0) RowKind.skeleton)
    ∧ (∀ (data : List User) (loading : Bool),
        (renderRows data loading).countP RowKind.isSkeleton =
          if loading then SKELETON_COUNT else 0)
    ∧ (∀ (data : List User) (loading : Bool),
        (renderRows data loading).take data.length = data.map RowKind.real)
    ∧ (∀ (records : List User) (term sb : String),
        ((derive records term sb).map RowKind.real).countP RowKind.isSkeleton = 0) := by
  have hrows : ∀ (data : List User) (loading : Bool),
      renderRows data loading =
        data.map RowKind.real ++
          List.replicate (if loading then SKELETON_COUNT else 0) RowKind.skeleton := by
    intro data loading
    cases loading <;> simp [renderRows]
  refine ⟨hrows, ?_, ?_, ?_⟩
  · intro data loading
    rw [hrows, List.countP_append, countP_skeleton_real, List.countP_replicate]
    simp [RowKind.isSkeleton]
  · intro data loading
    rw [hrows, List.take_append_of_le_length (by simp), List.take_of_length_le (by simp)]
  · intro records term sb
    exact countP_skeleton_real _

/-! ## Lemmas: the debounced search -/

lemma flushDue_none_eq (s : DebounceState) (t : Nat) (hp : s.pendingTimer = none) :
    flushDue s t = s := by
  simp only [flushDue, hp]

lemma flushDue_skip (s : DebounceState) (t d : Nat) (u : String)
    (hp : s.pendingTimer = some (d, u)) (h : ¬ d ≤ t) : flushDue s t = s := by
  simp only [flushDue, hp]
  rw [if_neg h]

lemma flushDue_fire (s : DebounceState) (t d : Nat) (u : String)
    (hp : s.pendingTimer = some (d, u)) (h : d ≤ t) :
    flushDue s t =
      { s with settled := u, pendingTimer := none,
               emissions := s.emissions ++ [(d, u)] } := by
  simp only [flushDue, hp]
  rw [if_pos h]

lemma debounceStep_cancels (s : DebounceState) (t : Nat) (v : String) (d : Nat) (u : String)
    (hp : s.pendingTimer = some (d, u)) (ht : t < d) :
    debounceStep s t v = { s with raw := v, pendingTimer := some (t + DEBOUNCE_MS, v) } := by
  unfold debounceStep
  rw [flushDue_skip s t d u hp (by omega)]

lemma debounceStep_fresh (s : DebounceState) (t : Nat) (v : String)
    (hp : s.pendingTimer = none) :
    debounceStep s t v = { s with raw := v, pendingTimer := some (t + DEBOUNCE_MS, v) } := by
  unfold debounceStep
  rw [flushDue_none_eq s t hp]

lemma debounce_fold_burst (ts : List (Nat × String)) :
    ∀ (s : DebounceState) (d : Nat) (u : String), s.pendingTimer = some (d, u) →
      withinBurst d ts → ∀ h : ts ≠ [],
      ts.foldl (fun s tv => debounceStep s tv.1 tv.2) s =
        { s with raw := (ts.getLast h).2,
                 pendingTimer := some ((ts.getLast h).1 + DEBOUNCE_MS, (ts.getLast h).2) } := by
  induction ts with
  | nil =>
    intro _ _ _ _ _ h
    exact absurd rfl h
  | cons tv rest ih =>
    intro s d u hp hw hne
    obtain ⟨t, v⟩ := tv
    obtain ⟨ht, hw2⟩ := hw
    rw [List.foldl_cons, debounceStep_cancels s t v d u hp ht]
    cases rest with
    | nil => rfl
    | cons tv2 rest2 =>
      rw [ih _ (t + DEBOUNCE_MS) v rfl hw2 (List.cons_ne_nil _ _)]
      rfl

lemma debounceStep_emissions_le (s : DebounceState) (t : Nat) (v : String) (T : Nat)
    (hT : t ≤ T) (hall : ∀ e ∈ s.emissions, e.1 ≤ T) :
    ∀ e ∈ (debounceStep s t v).emissions, e.1 ≤ T := by
  cases hp : s.pendingTimer with
  | none =>
    unfold debounceStep
    rw [flushDue_none_eq s t hp]
    exact hall
  | some du =>
    obtain ⟨d, u⟩ := du
    by_cases hd : d ≤ t
    · unfold debounceStep
      rw [flushDue_fire s t d u hp hd]
      intro e he
      simp only [List.mem_append, List.mem_singleton] at he
      rcases he with he | he
      · exact hall e he
      · rw [he]
        omega
    · unfold debounceStep
      rw [flushDue_skip s t d u hp hd]
      exact hall

lemma debounce_fold_emissions_le (inputs : List (Nat × String)) :
    ∀ (s : DebounceState) (T : Nat), (∀ tv ∈ inputs, tv.1 ≤ T) →
      (∀ e ∈ s.emissions, e.1 ≤ T) →
      ∀ e ∈ (inputs.foldl (fun s tv => debounceStep s tv.1 tv.2) s).emissions, e.1 ≤ T := by
  induction inputs with
  | nil =>
    intro s T _ hall
    exact hall
  | cons tv rest ih =>
    intro s T hin hall
    rw [List.foldl_cons]
    exact ih _ T (fun x hx => hin x (List.mem_cons_of_mem _ hx))
      (debounceStep_emissions_le s tv.1 tv.2 T (hin tv (List.mem_cons_self _ _)) hall)

lemma flushDue_emissions_le (s : DebounceState) (T : Nat)
    (hall : ∀ e ∈ s.emissions, e.1 ≤ T) :
    ∀ e ∈ (flushDue s T).emissions, e.1 ≤ T := by
  cases hp : s.pendingTimer with
  | none =>
    rw [flushDue_none_eq s T hp]
    exact hall
  | some du =>
    obtain ⟨d, u⟩ := du
    by_cases hd : d ≤ T
    · rw [flushDue_fire s T d u hp hd]
      intro e he
      simp only [List.mem_append, List.mem_singleton] at he
      rcases he with he | he
      · exact hall e he
      · rw [he]
        exact hd
    · rw [flushDue_skip s T d u hp hd]
      exact hall

/-- C5 -- A raw search update arriving before the pending deadline
cancels that pending emission and schedules a new one; a whole burst of
updates each arriving within the 300-unit quiet window of its
predecessor produces exactly one settled emission, carrying the last
raw value, at the last update's time plus 300; after teardown no timer
is pending and every recorded emission happened no later than the
teardown instant; and the concrete burst "a", "al", "ali" at times 0,
50, 100 emits exactly `(400, "ali")`. -/
theorem debounce_single_settled_emission :
    (∀ (s : DebounceState) (t : Nat) (v : String) (d : Nat) (u : String),
      s.pendingTimer = some (d, u) → t < d →
      (debounceStep s t v).emissions = s.emissions ∧
        (debounceStep s t v).pendingTimer = some (t + DEBOUNCE_MS, v))
    ∧ (∀ (t1 : Nat) (v1 : String) (rest : List (Nat × String)) (tEnd : Nat),
        withinBurst (t1 + DEBOUNCE_MS) rest →
        ((((t1, v1) :: rest).getLast (List.cons_ne_nil _ _)).1 + DEBOUNCE_MS ≤ tEnd) →
        (debounceAt ((t1, v1) :: rest) tEnd).emissions =
            [((((t1, v1) :: rest).getLast (List.cons_ne_nil _ _)).1 + DEBOUNCE_MS,
              (((t1, v1) :: rest).getLast (List.cons_ne_nil _ _)).2)] ∧
          (debounceAt ((t1, v1) :: rest) tEnd).settled =
            (((t1, v1) :: rest).getLast (List.cons_ne_nil _ _)).2)
    ∧ (∀ (inputs : List (Nat × String)) (T : Nat), (∀ tv ∈ inputs, tv.1 ≤ T) →
        (debounceTeardown inputs T).pendingTimer = none ∧
          ∀ e ∈ (debounceTeardown inputs T).emissions, e.1 ≤ T)
    ∧ ((debounceAt [(0, "a"), (50, "al"), (100, "ali")] 400).emissions = [(400, "ali")] ∧
        (debounceAt [(0, "a"), (50, "al"), (100, "ali")] 400).settled = "ali") := by
  refine ⟨?_, ?_, ?_, by decide, by decide⟩
  · intro s t v d u hp ht
    rw [debounceStep_cancels s t v d u hp ht]
    exact ⟨rfl, rfl⟩
  · intro t1 v1 rest tEnd hw hend
    have hrun : debounceRun ((t1, v1) :: rest) =
        { debounceInit with
            raw := (((t1, v1) :: rest).getLast (List.cons_ne_nil _ _)).2,
            pendingTimer := some ((((t1, v1) :: rest).getLast (List.cons_ne_nil _ _)).1 +
              DEBOUNCE_MS, (((t1, v1) :: rest).getLast (List.cons_ne_nil _ _)).2) } := by
      show ((t1, v1) :: rest).foldl (fun s tv => debounceStep s tv.1 tv.2) debounceInit = _
      rw [List.foldl_cons, debounceStep_fresh debounceInit t1 v1 rfl]
      cases rest with
      | nil => rfl
      | cons tv2 rest2 =>
        rw [debounce_fold_burst _ _ (t1 + DEBOUNCE_MS) v1 rfl hw (List.cons_ne_nil _ _)]
        rfl
    unfold debounceAt
    rw [hrun, flushDue_fire _ tEnd _ _ rfl hend]
    exact ⟨rfl, rfl⟩
  · intro inputs T hin
    constructor
    · rfl
    · intro e he
      exact flushDue_emissions_le _ T
        (debounce_fold_emissions_le inputs debounceInit T hin (by simp [debounceInit])) e he

/-- Witness for C5 at the concrete three-update burst. -/
theorem debounce_single_settled_emission_witness :
    (debounceAt [(0, "a"), (50, "al"), (100, "ali")] 400).emissions = [(400, "ali")] ∧
      (debounceTeardown [(0, "a")] 100).pendingTimer = none :=
  ⟨((debounce_single_settled_emission.2.1 0 "a" [(50, "al"), (100, "ali")] 400
      ⟨by decide, by decide, trivial⟩ (by decide)).1).trans (by decide),
    (debounce_single_settled_emission.2.2.1 [(0, "a")] 100 (by decide)).1⟩

/-! ## Lemmas: the memoized derivation -/

lemma useMemoStep_hit {δ ε : Type} [DecidableEq δ] (compute : δ → ε)
    (c : MemoCell δ ε) (deps : δ) (h : c.deps = deps) :
    useMemoStep compute (some c) deps = (c, c.value, false) := by
  simp only [useMemoStep]
  rw [if_pos h]

lemma useMemoStep_deps {δ ε : Type} [DecidableEq δ] (compute : δ → ε)
    (cell : Option (MemoCell δ ε)) (deps : δ) :
    (useMemoStep compute cell deps).1.deps = deps := by
  cases cell with
  | none => rfl
  | some c =>
    by_cases h : c.deps = deps
    · simp only [useMemoStep]
      rw [if_pos h]
      exact h
    · simp only [useMemoStep]
      rw [if_neg h]

lemma useMemoStep_value {δ ε : Type} [DecidableEq δ] (compute : δ → ε)
    (cell : Option (MemoCell δ ε)) (deps : δ) :
    (useMemoStep compute cell deps).2.1 = (useMemoStep compute cell deps).1.value := by
  cases cell with
  | none => rfl
  | some c =>
    by_cases h : c.deps = deps
    · simp only [useMemoStep]
      rw [if_pos h]
    · simp only [useMemoStep]
      rw [if_neg h]

lemma useMemoStep_miss_flag {δ ε : Type} [DecidableEq δ] (compute : δ → ε)
    (c : MemoCell δ ε) (deps : δ) :
    (useMemoStep compute (some c) deps).2.2 = true ↔ c.deps ≠ deps := by
  by_cases h : c.deps = deps
  · simp only [useMemoStep]
    rw [if_pos h]
    simp [h]
  · simp only [useMemoStep]
    rw [if_neg h]
    simp [h]

/-- C7 -- The memoized derivation recomputes exactly when a dependency
differs from the previous computation: re-rendering with the same
`users`, settled search and sort directive (as after a `loading` flip)
recomputes neither memo and returns the very value stored in the cells;
and a cached cell recomputes iff its dependency tuple changed,
returning the stored value itself on a hit. -/
theorem derive_memoized_recompute_iff :
    (∀ (ms : MemoState) (users : List User) (term sb : String),
      renderDerive (renderDerive ms users term sb).1 users term sb =
        ((renderDerive ms users term sb).1, (renderDerive ms users term sb).2.1,
          false, false))
    ∧ (∀ (compute : List User × String → List User)
        (c : MemoCell (List User × String) (List User)) (deps : List User × String),
        ((useMemoStep compute (some c) deps).2.2 = true ↔ c.deps ≠ deps)
        ∧ (c.deps = deps → useMemoStep compute (some c) deps = (c, c.value, false))) := by
  constructor
  · intro ms users term sb
    show renderDerive ⟨some _, some _⟩ users term sb = _
    unfold renderDerive
    simp only
    rw [useMemoStep_hit _ _ _ (useMemoStep_deps _ ms.filteredCell (users, term)),
      ← useMemoStep_value]
    rw [useMemoStep_hit _ _ _ (useMemoStep_deps _ ms.sortedCell
      ((useMemoStep (fun uv => filteredUsers uv.1 uv.2) ms.filteredCell (users, term)).2.1,
        sb)), ← useMemoStep_value]
  · intro compute c deps
    exact ⟨useMemoStep_miss_flag compute c deps, useMemoStep_hit compute c deps⟩

/-- Witness for C7 at a concrete cached cell whose dependencies match. -/
theorem derive_memoized_recompute_iff_witness :
    useMemoStep (fun uv => filteredUsers uv.1 uv.2)
        (some ⟨(([] : List User), ""), ([] : List User)⟩) (([] : List User), "") =
      (⟨(([] : List User), ""), ([] : List User)⟩, ([] : List User), false) :=
  ((derive_memoized_recompute_iff.2 (fun uv => filteredUsers uv.1 uv.2)
    ⟨(([] : List User), ""), ([] : List User)⟩ (([] : List User), "")).2) rfl

/-! ## Lemmas: fetch failure -/

/-- C6 counterexample -- the claim that a failed fetch returns the
controller to the idle state (`loading = false`) is false: after the
state reached by one completed fetch and one trigger, a rejection of
the in-flight fetch leaves `loading = true`, because `loadUsers`
installs no rejection handler. -/
theorem fetch_failure_not_idle_counterexample :
    ¬ ((stepFail (step (runK 1) Event.trigger)).loading = false) := by
  decide

/-- C6 amended -- on a fetch rejection the controller keeps the
accumulated records, `hasMore`, `loading` and `page` exactly as they
were (nothing recovers the failure and no error flag exists); in
particular after a trigger the controller is stuck with
`loading = true` rather than returning to idle, with records and
`hasMore` intact. -/
theorem fetch_failure_stuck_loading (s : AppState) :
    ((stepFail s).users = s.users ∧ (stepFail s).hasMore = s.hasMore ∧
      (stepFail s).loading = s.loading ∧ (stepFail s).page = s.page)
    ∧ ((stepFail (step (runK 1) Event.trigger)).users = (runK 1).users ∧
        (stepFail (step (runK 1) Event.trigger)).hasMore = (runK 1).hasMore ∧
        (stepFail (step (runK 1) Event.trigger)).loading = true) := by
  exact ⟨⟨rfl, rfl, rfl, rfl⟩, rfl, rfl, rfl⟩

end InfiniteTable
